import Mathlib

/-!
Verification of the Smart-shoper price-comparison core.

Shallow embedding of the data model (`types.ts`), the aggregation and
ranking logic of `components/PriceParser.tsx`, the state transitions of
`App.tsx`, the response validation of `components/MenuPlanner.tsx`, the
post-processing of `services/gemini.ts`, and the budget buckets of
`components/Analytics.tsx`.

Modelling conventions:
* JS numbers holding ruble amounts are modelled as `ℤ`.
* JS `Array.prototype.sort` (stable since ES2019) applied to a consistent
  comparator is modelled by `List.insertionSort`, which is stable; the
  default string sort compares UTF-16 code units, modelled by a
  code-point lexicographic comparison (`charListLe`), which agrees on the
  Basic Multilingual Plane.
* `Array.from(new Set(xs))` (first-occurrence deduplication in insertion
  order) is modelled by `dedupFirstAux` with an accumulator of seen keys.
* Optional JS fields / `undefined` are modelled by `Option`; a JS
  `TypeError` from reading a field of `undefined` is modelled by an
  `Option` that is `none`.
-/

namespace SmartShopper

/-! ### Data model (src: types.ts) -/

/-- `StorePrice` from types.ts: one retailer's quote for one item. -/
structure StorePrice where
  storeName : String
  price : ℤ
  inStock : Bool
  productName : String
  weight : String
deriving DecidableEq, Repr

/-- `ShoppingItem` from types.ts. -/
structure ShoppingItem where
  id : String
  name : String
  originalAmount : String
  prices : List StorePrice
  bestStore : Option String
  bestPrice : Option ℤ
deriving DecidableEq, Repr

/-- `Ingredient` from types.ts. -/
structure Ingredient where
  name : String
  amount : String
  category : String
deriving DecidableEq, Repr

/-- `Meal` from types.ts. -/
structure Meal where
  day : String
  breakfast : String
  lunch : String
  dinner : String
  snackAfternoon : String
  snackEvening : String
  ingredients : List Ingredient
deriving DecidableEq, Repr

/-- One entry of `AIPlanResponse.shoppingList` from types.ts. -/
structure PlanEntry where
  name : String
  amount : String
  estimatedPrice : ℤ
deriving DecidableEq, Repr

/-- `AIPlanResponse` from types.ts. -/
structure AIPlanResponse where
  meals : List Meal
  shoppingList : List PlanEntry
  totalEstimatedCost : ℤ
deriving DecidableEq, Repr

/-- `AppStatus` from types.ts. -/
inductive AppStatus where
  | IDLE
  | PLANNING
  | PARSING
  | READY
  | ERROR
deriving DecidableEq, Repr

/-- The aggregated per-store record built by `PriceParser` (the object
literal `{ storeName, totalCost, missingItems }`). -/
structure StoreTotal where
  storeName : String
  totalCost : ℤ
  missingItems : ℕ
deriving DecidableEq, Repr

/-! ### String ordering (model of the default JS `.sort()` on strings) -/

/-- Lexicographic `≤` on char lists by code point, the order used by the
default JS string sort (UTF-16 code-unit order, identical on the BMP). -/
def charListLe : List Char → List Char → Bool
  | [], _ => true
  | _ :: _, [] => false
  | a :: as, b :: bs => if a < b then true else if b < a then false else charListLe as bs

/-- The string order used to sort the retailer universe. -/
def rStr (a b : String) : Prop := charListLe a.toList b.toList = true

instance : DecidableRel rStr := fun a b => by unfold rStr; infer_instance

/-- First-occurrence deduplication with a `seen` accumulator; models
`Array.from(new Set(xs))`, which keeps the first occurrence of each
element in insertion order. -/
def dedupFirstAux (seen : List String) : List String → List String
  | [] => []
  | x :: xs => if x ∈ seen then dedupFirstAux seen xs else x :: dedupFirstAux (x :: seen) xs

/-! ### Store aggregation and ranking (src: components/PriceParser.tsx, READY branch) -/

/-- All store names mentioned by any quote of any item, in order
(`items.flatMap(item => item.prices.map(p => p.storeName))`). -/
def allQuoteStoreNames (items : List ShoppingItem) : List String :=
  items.flatMap (fun item => item.prices.map (fun p => p.storeName))

/-- Step 1 of `PriceParser`:
`Array.from(new Set(items.flatMap(...))).sort()`. -/
def allStoreNames (items : List ShoppingItem) : List String :=
  List.insertionSort rStr (dedupFirstAux [] (allQuoteStoreNames items))

/-- The body of the `items.forEach` loop in step 2 of `PriceParser`:
find this store's quote for the item; add its price when in stock,
otherwise count the item as missing. -/
def stepStore (s : String) (acc : StoreTotal) (item : ShoppingItem) : StoreTotal :=
  match item.prices.find? (fun p => p.storeName == s) with
  | some p =>
      if p.inStock then { acc with totalCost := acc.totalCost + p.price }
      else { acc with missingItems := acc.missingItems + 1 }
  | none => { acc with missingItems := acc.missingItems + 1 }

/-- Step 2 of `PriceParser` for one store: the `let totalCost = 0; let
missingItems = 0; items.forEach(...)` loop. -/
def storeTotalFor (items : List ShoppingItem) (s : String) : StoreTotal :=
  items.foldl (stepStore s) { storeName := s, totalCost := 0, missingItems := 0 }

/-- Step 2 of `PriceParser`: `allStoreNames.map(storeName => ...)`. -/
def storeTotals (items : List ShoppingItem) : List StoreTotal :=
  (allStoreNames items).map (storeTotalFor items)

/-- The two-key comparator of step 3 as a relation: `missingItems`
ascending first, then `totalCost` ascending
(`if (a.missingItems !== b.missingItems) return a.missingItems - b.missingItems;
return a.totalCost - b.totalCost`). -/
def leT (a b : StoreTotal) : Prop :=
  a.missingItems < b.missingItems ∨
    (a.missingItems = b.missingItems ∧ a.totalCost ≤ b.totalCost)

instance : DecidableRel leT := fun a b => by unfold leT; infer_instance

/-- Step 3 of `PriceParser` on an arbitrary list of totals:
`[...storeTotals].sort((a, b) => ...)` (a stable sort). -/
def rankStores (ts : List StoreTotal) : List StoreTotal :=
  List.insertionSort leT ts

/-- `sortedStores` of `PriceParser`. -/
def sortedStores (items : List ShoppingItem) : List StoreTotal :=
  rankStores (storeTotals items)

/-- Step 4 of `PriceParser`: `const winner = sortedStores[0]`; `none`
models the JS value `undefined` (whose field accesses throw). -/
def winner (items : List ShoppingItem) : Option StoreTotal :=
  (sortedStores items).head?

/-! ### Per-item best-price highlighter (src: components/PriceParser.tsx, table body) -/

/-- `item.prices.filter(p => p.inStock).map(p => p.price)`. -/
def inStockPrices (item : ShoppingItem) : List ℤ :=
  (item.prices.filter (fun p => p.inStock)).map (fun p => p.price)

/-- `const minPrice = prices.length > 0 ? Math.min(...prices) : 0`. -/
def minPrice (item : ShoppingItem) : ℤ :=
  match inStockPrices item with
  | [] => 0
  | x :: xs => xs.foldl min x

/-- `const isBest = p && p.inStock && p.price === minPrice` for a quote. -/
def isBest (item : ShoppingItem) (p : StorePrice) : Bool :=
  p.inStock && decide (p.price = minPrice item)

/-! ### Spec-side aggregation quantities (from spec.md §4.1 / §8) -/

/-- Spec side: the price of the item's in-stock quote for store `s`
(0 when there is none). -/
def specInStockPrice (item : ShoppingItem) (s : String) : ℤ :=
  ((item.prices.find? (fun p => p.storeName == s && p.inStock)).map (fun p => p.price)).getD 0

/-- Spec side: whether store `s` has an in-stock quote for the item. -/
def specHasInStock (item : ShoppingItem) (s : String) : Bool :=
  item.prices.any (fun p => p.storeName == s && p.inStock)

/-- Code side: the amount the `forEach` loop adds for this item. -/
def codeContrib (item : ShoppingItem) (s : String) : ℤ :=
  match item.prices.find? (fun p => p.storeName == s) with
  | some p => if p.inStock then p.price else 0
  | none => 0

/-- Code side: whether the `forEach` loop takes the in-stock branch. -/
def codeHasStock (item : ShoppingItem) (s : String) : Bool :=
  match item.prices.find? (fun p => p.storeName == s) with
  | some p => p.inStock
  | none => false

/-! ### Price-estimation post-processing (src: services/gemini.ts, simulatePriceParsing) -/

/-- `stockItems.reduce((prev, curr) => prev.price < curr.price ? prev : curr)`. -/
def reduceBest (x : StorePrice) (xs : List StorePrice) : StorePrice :=
  xs.foldl (fun prev curr => if prev.price < curr.price then prev else curr) x

/-- The `data.map(item => ...)` post-processing of `simulatePriceParsing`:
attach `bestStore`/`bestPrice` from the cheapest in-stock quote, or return
the item unchanged when nothing is in stock. -/
def postProcess (item : ShoppingItem) : ShoppingItem :=
  match item.prices.filter (fun p => p.inStock) with
  | [] => item
  | x :: xs =>
      { item with
        bestStore := some (reduceBest x xs).storeName
        bestPrice := some (reduceBest x xs).price }

/-! ### App session state (src: App.tsx) -/

/-- The session state of `App` relevant to the claims (`currentPlan`,
`shoppingList`, `status`); chat state is omitted as no claim touches it. -/
structure AppState where
  currentPlan : Option AIPlanResponse
  shoppingList : List ShoppingItem
  status : AppStatus
deriving DecidableEq, Repr

/-- One skeleton item of `handlePlanUpdate`
(`{ id: idx.toString(), name, originalAmount: amount, prices: [] }`). -/
def skeletonOf (idx : ℕ) (e : PlanEntry) : ShoppingItem :=
  { id := toString idx
    name := e.name
    originalAmount := e.amount
    prices := []
    bestStore := none
    bestPrice := none }

/-- `newPlan.shoppingList.map((item, idx) => ...)` with its running index. -/
def skeletonItems (idx : ℕ) : List PlanEntry → List ShoppingItem
  | [] => []
  | e :: es => skeletonOf idx e :: skeletonItems (idx + 1) es

/-- `handlePlanUpdate` of App.tsx: store the new plan, and when its
shopping list is non-empty replace the whole shopping list by skeleton
items and reset the status to IDLE. -/
def handlePlanUpdate (st : AppState) (newPlan : AIPlanResponse) : AppState :=
  if newPlan.shoppingList.length > 0 then
    { st with
      currentPlan := some newPlan
      shoppingList := skeletonItems 0 newPlan.shoppingList
      status := AppStatus.IDLE }
  else { st with currentPlan := some newPlan }

/-! ### Defensive validation of the tool-call response (src: components/MenuPlanner.tsx) -/

/-- A JS value expected to be an array: either an actual array or any
non-array value (`undefined`, an object, ...). -/
inductive JsArrayField (α : Type) where
  | arr (xs : List α)
  | notArray
deriving DecidableEq

/-- A JS value expected to be a number. -/
inductive JsNumField where
  | num (q : ℤ)
  | notNum
deriving DecidableEq

/-- The raw `call.args` of an `update_meal_plan` tool call before
validation. -/
structure RawPlanArgs where
  meals : JsArrayField Meal
  shoppingList : JsArrayField PlanEntry
  totalEstimatedCost : JsNumField
deriving DecidableEq

/-- The defensive validation in `handleSendMessage`:
`Array.isArray(args.meals) ? args.meals : []`, same for the shopping
list, and `typeof args.totalEstimatedCost === 'number' ? ... : 0`. -/
def validatePlanArgs (args : RawPlanArgs) : AIPlanResponse :=
  { meals := match args.meals with | .arr xs => xs | .notArray => []
    shoppingList := match args.shoppingList with | .arr xs => xs | .notArray => []
    totalEstimatedCost := match args.totalEstimatedCost with | .num q => q | .notNum => 0 }

/-- `handleSendMessage` on an `update_meal_plan` call: validate the args
and hand the plan to `setCurrentPlan`/`onPlanUpdated` (the latter is
`handlePlanUpdate`, which also stores the plan). -/
def processToolCall (st : AppState) (args : RawPlanArgs) : AppState :=
  handlePlanUpdate st (validatePlanArgs args)

/-! ### Analytics buckets (src: components/Analytics.tsx) -/

/-- JS `toLowerCase` restricted to the alphabets the keyword matcher can
meet: ASCII letters and the Russian alphabet. -/
def lowerRuChar (c : Char) : Char :=
  if 'A' ≤ c ∧ c ≤ 'Z' then Char.ofNat (c.toNat + 32)
  else if 'А' ≤ c ∧ c ≤ 'Я' then Char.ofNat (c.toNat + 32)
  else if c = 'Ё' then 'ё'
  else c

/-- `item.name.toLowerCase()`. -/
def lowerRu (s : String) : String :=
  String.mk (s.toList.map lowerRuChar)

/-- Whether `needle` occurs at the start of `hay`. -/
def kwAt : List Char → List Char → Bool
  | _, [] => true
  | [], _ :: _ => false
  | a :: as, b :: bs => a == b && kwAt as bs

/-- Whether `needle` occurs anywhere in `hay` (JS `String.includes`). -/
def hasKwChars : List Char → List Char → Bool
  | [], needle => needle.isEmpty
  | a :: t, needle => kwAt (a :: t) needle || hasKwChars t needle

/-- `n.includes(kw)` for the keyword matcher. -/
def hasKw (s kw : String) : Bool :=
  hasKwChars s.toList kw.toList

/-- The category chain of `Analytics`: 0 = Мясо/Рыба, 1 = Овощи/Фрукты,
2 = Молочка, 3 = Бакалея (the catch-all `else`). -/
def categorize (name : String) : ℕ :=
  let n := lowerRu name
  if hasKw n "куриц" || hasKw n "мясо" || hasKw n "рыба" || hasKw n "филе" || hasKw n "говяд" then 0
  else if hasKw n "огур" || hasKw n "помид" || hasKw n "картоф" || hasKw n "фрукт" || hasKw n "яблок" then 1
  else if hasKw n "молок" || hasKw n "сыр" || hasKw n "творог" || hasKw n "кефир" then 2
  else 3

/-- `data[c].value += v` on the quadruple of bucket values. -/
def addToBucket (b : ℤ × ℤ × ℤ × ℤ) (c : ℕ) (v : ℤ) : ℤ × ℤ × ℤ × ℤ :=
  match c with
  | 0 => (b.1 + v, b.2.1, b.2.2.1, b.2.2.2)
  | 1 => (b.1, b.2.1 + v, b.2.2.1, b.2.2.2)
  | 2 => (b.1, b.2.1, b.2.2.1 + v, b.2.2.2)
  | _ => (b.1, b.2.1, b.2.2.1, b.2.2.2 + v)

/-- The `items.forEach` loop of `Analytics` over the four buckets, with
`const price = item.bestPrice || 0`. -/
def bucketValues (items : List ShoppingItem) : ℤ × ℤ × ℤ × ℤ :=
  items.foldl
    (fun b item => addToBucket b (categorize item.name) (item.bestPrice.getD 0))
    (0, 0, 0, 0)

/-- The sum of the four bucket values. -/
def sum4 (b : ℤ × ℤ × ℤ × ℤ) : ℤ :=
  b.1 + b.2.1 + b.2.2.1 + b.2.2.2

/-! ### Concrete test fixtures from the spec's examples -/

/-- The two-item example of spec §8: item1 with in-stock quotes A:100 and
B:110, item2 with only B:120. -/
def exItems : List ShoppingItem :=
  [ { id := "1", name := "item1", originalAmount := ""
      prices := [ { storeName := "A", price := 100, inStock := true, productName := "", weight := "" },
                  { storeName := "B", price := 110, inStock := true, productName := "", weight := "" } ]
      bestStore := none, bestPrice := none },
    { id := "2", name := "item2", originalAmount := ""
      prices := [ { storeName := "B", price := 120, inStock := true, productName := "", weight := "" } ]
      bestStore := none, bestPrice := none } ]

/-- The highlighter example of spec §8: X:100 in stock, Y:90 out of
stock, Z:100 in stock. -/
def exItem5 : ShoppingItem :=
  { id := "5", name := "item5", originalAmount := ""
    prices := [ { storeName := "X", price := 100, inStock := true, productName := "", weight := "" },
                { storeName := "Y", price := 90, inStock := false, productName := "", weight := "" },
                { storeName := "Z", price := 100, inStock := true, productName := "", weight := "" } ]
    bestStore := none, bestPrice := none }

/-- An item with two in-stock quotes tied at the minimum price. -/
def exTieItem : ShoppingItem :=
  { id := "6", name := "item6", originalAmount := ""
    prices := [ { storeName := "A", price := 100, inStock := true, productName := "pA", weight := "" },
                { storeName := "B", price := 100, inStock := true, productName := "pB", weight := "" } ]
    bestStore := none, bestPrice := none }

/-- An item that has no quotes at all. -/
def exNoQuoteItem : ShoppingItem :=
  { id := "7", name := "хлеб", originalAmount := "1 шт"
    prices := [], bestStore := none, bestPrice := none }

/-- A previously parsed item carrying price data. -/
def exOldItem : ShoppingItem :=
  { id := "0", name := "молоко", originalAmount := "2 л"
    prices := [ { storeName := "A", price := 80, inStock := true, productName := "m", weight := "1л" } ]
    bestStore := some "A", bestPrice := some 80 }

/-- A session state holding the previously parsed list. -/
def exPrevSt : AppState :=
  { currentPlan := none, shoppingList := [exOldItem], status := AppStatus.READY }

/-- A freshly generated plan whose shopping list is empty. -/
def exEmptyPlan : AIPlanResponse :=
  { meals := [], shoppingList := [], totalEstimatedCost := 0 }

/-- A freshly generated plan with two shopping-list entries. -/
def exPlan8 : AIPlanResponse :=
  { meals := []
    shoppingList := [ { name := "молоко", amount := "2 л", estimatedPrice := 90 },
                      { name := "хлеб", amount := "1 шт", estimatedPrice := 40 } ]
    totalEstimatedCost := 130 }

/-- A malformed tool-call response: nothing has the expected type. -/
def exBadArgs : RawPlanArgs :=
  { meals := .notArray, shoppingList := .notArray, totalEstimatedCost := .notNum }

/-- An item for the analytics bucket example. -/
def exMilkItem : ShoppingItem :=
  { id := "9", name := "Молоко 3.2%", originalAmount := "1 л"
    prices := [], bestStore := some "A", bestPrice := some 75 }


/-! ### Helper lemmas: the string order -/

theorem charListLe_cons {a b : Char} {as bs : List Char} :
    charListLe (a :: as) (b :: bs) = true ↔ (a < b ∨ (a = b ∧ charListLe as bs = true)) := by
  show (if a < b then true else if b < a then false else charListLe as bs) = true ↔ _
  split_ifs with h1 h2
  · simp [h1]
  · constructor
    · intro h; simp at h
    · rintro (h | ⟨rfl, _⟩)
      · exact absurd h h1
      · exact absurd h2 (lt_irrefl a)
  · have hab : a = b := le_antisymm (not_lt.mp h2) (not_lt.mp h1)
    simp [hab, lt_irrefl]

theorem charListLe_total : ∀ as bs : List Char, charListLe as bs = true ∨ charListLe bs as = true := by
  intro as
  induction as with
  | nil => intro bs; left; rfl
  | cons a as ih =>
    intro bs
    cases bs with
    | nil => right; rfl
    | cons b bs =>
      rcases lt_trichotomy a b with h | h | h
      · left; exact charListLe_cons.mpr (Or.inl h)
      · subst h
        rcases ih bs with h | h
        · left; exact charListLe_cons.mpr (Or.inr ⟨rfl, h⟩)
        · right; exact charListLe_cons.mpr (Or.inr ⟨rfl, h⟩)
      · right; exact charListLe_cons.mpr (Or.inl h)

theorem charListLe_trans : ∀ as bs cs : List Char,
    charListLe as bs = true → charListLe bs cs = true → charListLe as cs = true := by
  intro as
  induction as with
  | nil => intro bs cs _ _; rfl
  | cons a as ih =>
    intro bs cs h1 h2
    cases bs with
    | nil => simp [charListLe] at h1
    | cons b bs =>
      cases cs with
      | nil => simp [charListLe] at h2
      | cons c cs =>
        rcases charListLe_cons.mp h1 with hab | ⟨rfl, hab⟩ <;>
          rcases charListLe_cons.mp h2 with hbc | ⟨rfl, hbc⟩
        · exact charListLe_cons.mpr (Or.inl (lt_trans hab hbc))
        · exact charListLe_cons.mpr (Or.inl hab)
        · exact charListLe_cons.mpr (Or.inl hbc)
        · exact charListLe_cons.mpr (Or.inr ⟨rfl, ih bs cs hab hbc⟩)

instance : IsTotal String rStr :=
  ⟨fun a b => charListLe_total a.toList b.toList⟩

instance : IsTrans String rStr :=
  ⟨fun a b c => charListLe_trans a.toList b.toList c.toList⟩

theorem lex_cons_iff {a b : Char} {as bs : List Char} :
    List.Lex (· < ·) (a :: as) (b :: bs) ↔ (a < b ∨ (a = b ∧ List.Lex (· < ·) as bs)) := by
  constructor
  · intro h
    cases h with
    | rel h => exact Or.inl h
    | cons h => exact Or.inr ⟨rfl, h⟩
  · rintro (h | ⟨rfl, h⟩)
    · exact List.Lex.rel h
    · exact List.Lex.cons h

theorem charListLe_iff_lex : ∀ as bs : List Char,
    charListLe as bs = true ↔ (as = bs ∨ List.Lex (· < ·) as bs) := by
  intro as
  induction as with
  | nil =>
    intro bs
    cases bs with
    | nil => simp [charListLe]
    | cons b bs => simp [charListLe, List.Lex.nil]
  | cons a as ih =>
    intro bs
    cases bs with
    | nil =>
      simp only [charListLe, List.cons_ne_nil, false_or]
      constructor
      · intro h; simp at h
      · intro h; exact absurd h (List.Lex.not_nil_right _ _)
    | cons b bs =>
      rw [charListLe_cons, ih bs, lex_cons_iff]
      constructor
      · rintro (h | ⟨rfl, rfl | h⟩)
        · exact Or.inr (Or.inl h)
        · exact Or.inl rfl
        · exact Or.inr (Or.inr ⟨rfl, h⟩)
      · rintro (h | h | ⟨rfl, h⟩)
        · rw [List.cons.injEq] at h
          exact Or.inr ⟨h.1, Or.inl h.2⟩
        · exact Or.inl h
        · exact Or.inr ⟨rfl, Or.inr h⟩

theorem rStr_iff (a b : String) :
    rStr a b ↔ (a = b ∨ List.Lex (· < ·) a.toList b.toList) := by
  unfold rStr
  rw [charListLe_iff_lex]
  constructor
  · rintro (h | h)
    · exact Or.inl (String.ext h)
    · exact Or.inr h
  · rintro (rfl | h)
    · exact Or.inl rfl
    · exact Or.inr h

/-! ### Helper lemmas: first-occurrence dedup -/

theorem mem_dedupFirstAux (a : String) :
    ∀ (l seen : List String), a ∈ dedupFirstAux seen l ↔ (a ∈ l ∧ a ∉ seen) := by
  intro l
  induction l with
  | nil => intro seen; simp [dedupFirstAux]
  | cons x xs ih =>
    intro seen
    by_cases hx : x ∈ seen
    · rw [dedupFirstAux, if_pos hx, ih]
      constructor
      · rintro ⟨h1, h2⟩; exact ⟨List.mem_cons_of_mem _ h1, h2⟩
      · rintro ⟨h1, h2⟩
        rcases List.mem_cons.mp h1 with rfl | h1
        · exact absurd hx h2
        · exact ⟨h1, h2⟩
    · rw [dedupFirstAux, if_neg hx]
      constructor
      · intro h
        rcases List.mem_cons.mp h with rfl | h
        · exact ⟨List.mem_cons_self _ _, hx⟩
        · have := (ih (x :: seen)).mp h
          exact ⟨List.mem_cons_of_mem _ this.1, fun hc => this.2 (List.mem_cons_of_mem _ hc)⟩
      · rintro ⟨h1, h2⟩
        rcases List.mem_cons.mp h1 with rfl | h1
        · exact List.mem_cons_self _ _
        · by_cases hax : a = x
          · subst hax; exact List.mem_cons_self _ _
          · refine List.mem_cons_of_mem _ ((ih (x :: seen)).mpr ⟨h1, ?_⟩)
            intro hc
            rcases List.mem_cons.mp hc with h | h
            · exact hax h
            · exact h2 h

theorem nodup_dedupFirstAux :
    ∀ (l seen : List String), (dedupFirstAux seen l).Nodup := by
  intro l
  induction l with
  | nil => intro seen; simp [dedupFirstAux]
  | cons x xs ih =>
    intro seen
    by_cases hx : x ∈ seen
    · rw [dedupFirstAux, if_pos hx]; exact ih seen
    · rw [dedupFirstAux, if_neg hx]
      refine List.nodup_cons.mpr ⟨?_, ih (x :: seen)⟩
      intro hc
      exact ((mem_dedupFirstAux x xs (x :: seen)).mp hc).2 (List.mem_cons_self _ _)

/-! ### Helper lemmas: stability of the stable sort -/

theorem filter_orderedInsert_agree {α : Type} (r : α → α → Prop) [DecidableRel r] (p : α → Bool)
    (hp : ∀ a b, p a = true → p b = true → r a b) (x : α) :
    ∀ m : List α, (m.orderedInsert r x).filter p =
      if p x then x :: m.filter p else m.filter p := by
  intro m
  induction m with
  | nil =>
    by_cases hpx : p x = true <;> simp [List.orderedInsert, List.filter_cons, hpx]
  | cons y ys ih =>
    rw [List.orderedInsert]
    by_cases hxy : r x y
    · rw [if_pos hxy, List.filter_cons]
    · rw [if_neg hxy, List.filter_cons, ih]
      by_cases hpy : p y = true
      · by_cases hpx : p x = true
        · exact absurd (hp x y hpx hpy) hxy
        · simp [hpy, hpx, List.filter_cons]
      · by_cases hpx : p x = true <;> simp [hpy, hpx, List.filter_cons]

theorem filter_insertionSort_agree {α : Type} (r : α → α → Prop) [DecidableRel r] (p : α → Bool)
    (hp : ∀ a b, p a = true → p b = true → r a b) :
    ∀ l : List α, (List.insertionSort r l).filter p = l.filter p := by
  intro l
  induction l with
  | nil => rfl
  | cons a l ih =>
    rw [List.insertionSort, filter_orderedInsert_agree r p hp, ih, List.filter_cons]

instance : IsTotal StoreTotal leT :=
  ⟨by intro a b; unfold leT; omega⟩

instance : IsTrans StoreTotal leT :=
  ⟨by intro a b c; unfold leT; omega⟩

/-! ### Helper lemmas: the fold computing `Math.min` -/

theorem foldl_min_mem {α : Type} [LinearOrder α] :
    ∀ (xs : List α) (x : α), xs.foldl min x ∈ x :: xs := by
  intro xs
  induction xs with
  | nil => intro x; simp
  | cons y ys ih =>
    intro x
    rw [List.foldl_cons]
    rcases List.mem_cons.mp (ih (min x y)) with h | h
    · rcases min_choice x y with hc | hc
      · rw [h, hc]; exact List.mem_cons_self _ _
      · rw [h, hc]; exact List.mem_cons_of_mem _ (List.mem_cons_self _ _)
    · exact List.mem_cons_of_mem _ (List.mem_cons_of_mem _ h)

theorem foldl_min_le {α : Type} [LinearOrder α] :
    ∀ (xs : List α) (x q : α), q ∈ x :: xs → xs.foldl min x ≤ q := by
  intro xs
  induction xs with
  | nil =>
    intro x q hq
    rw [List.mem_singleton] at hq
    subst hq
    simp
  | cons y ys ih =>
    intro x q hq
    rw [List.foldl_cons]
    rcases List.mem_cons.mp hq with rfl | hq'
    · exact le_trans (ih _ _ (List.mem_cons_self _ _)) (min_le_left _ _)
    · rcases List.mem_cons.mp hq' with rfl | hq''
      · exact le_trans (ih _ _ (List.mem_cons_self _ _)) (min_le_right _ _)
      · exact ih _ q (List.mem_cons_of_mem _ hq'')

/-! ### Helper lemmas: the aggregation fold of step 2 -/

theorem stepStore_eq (s : String) (acc : StoreTotal) (item : ShoppingItem) :
    stepStore s acc item =
      { storeName := acc.storeName
        totalCost := acc.totalCost + codeContrib item s
        missingItems := acc.missingItems + (if codeHasStock item s = true then 0 else 1) } := by
  unfold stepStore codeContrib codeHasStock
  cases hf : item.prices.find? (fun p => p.storeName == s) with
  | none => simp
  | some p => by_cases hin : p.inStock = true <;> simp [hin]

theorem foldl_stepStore (s : String) :
    ∀ (items : List ShoppingItem) (acc : StoreTotal),
      items.foldl (stepStore s) acc =
        { storeName := acc.storeName
          totalCost := acc.totalCost + (items.map (fun i => codeContrib i s)).sum
          missingItems := acc.missingItems + items.countP (fun i => !(codeHasStock i s)) } := by
  intro items
  induction items with
  | nil => intro acc; simp
  | cons i rest ih =>
    intro acc
    rw [List.foldl_cons, ih, stepStore_eq]
    simp only [List.map_cons, List.sum_cons, List.countP_cons, StoreTotal.mk.injEq]
    refine ⟨trivial, by omega, ?_⟩
    cases hcs : codeHasStock i s
    · simp [hcs]
      omega
    · simp [hcs]

theorem storeTotalFor_eq (items : List ShoppingItem) (s : String) :
    storeTotalFor items s =
      { storeName := s
        totalCost := (items.map (fun i => codeContrib i s)).sum
        missingItems := items.countP (fun i => !(codeHasStock i s)) } := by
  unfold storeTotalFor
  rw [foldl_stepStore]
  simp

/-! ### Helper lemmas: code-side vs spec-side per-item quantities -/

theorem contrib_spec_aux (s : String) :
    ∀ l : List StorePrice, (l.map (fun p => p.storeName)).Nodup →
      ((match l.find? (fun p => p.storeName == s) with
        | some p => if p.inStock then p.price else 0
        | none => 0)
        = ((l.find? (fun p => p.storeName == s && p.inStock)).map (fun p => p.price)).getD 0
      ∧ (match l.find? (fun p => p.storeName == s) with
         | some p => p.inStock
         | none => false)
        = l.any (fun p => p.storeName == s && p.inStock)) := by
  intro l
  induction l with
  | nil => intro _; exact ⟨rfl, rfl⟩
  | cons p t ih =>
    intro hnd
    rw [List.map_cons, List.nodup_cons] at hnd
    obtain ⟨hpt, hnd'⟩ := hnd
    by_cases hps : (p.storeName == s) = true
    · by_cases hin : p.inStock = true
      · simp [List.find?_cons, List.any_cons, hps, hin]
      · have hts : ∀ q ∈ t, ¬((q.storeName == s && q.inStock) = true) := by
          intro q hq hc
          have hqs : q.storeName = s := by
            have := ((Bool.and_eq_true _ _).mp hc).1
            exact beq_iff_eq.mp this
          apply hpt
          rw [List.mem_map]
          refine ⟨q, hq, ?_⟩
          rw [hqs]
          exact (beq_iff_eq.mp hps).symm
        have hanyf : t.any (fun q => q.storeName == s && q.inStock) = false := by
          rw [← Bool.not_eq_true, List.any_eq_true]
          rintro ⟨q, hq, hc⟩
          exact hts q hq hc
        have hfind : t.find? (fun q => q.storeName == s && q.inStock) = none :=
          List.find?_eq_none.mpr hts
        simp [List.find?_cons, List.any_cons, hps, hin, hfind, hanyf]
    · have hps' : (p.storeName == s) = false := by simpa using hps
      have hih := ih hnd'
      simp [List.find?_cons, List.any_cons, hps', hih.1, hih.2]

theorem codeContrib_eq_spec (item : ShoppingItem) (s : String)
    (h : (item.prices.map (fun p => p.storeName)).Nodup) :
    codeContrib item s = specInStockPrice item s :=
  (contrib_spec_aux s item.prices h).1

theorem codeHasStock_eq_spec (item : ShoppingItem) (s : String)
    (h : (item.prices.map (fun p => p.storeName)).Nodup) :
    codeHasStock item s = specHasInStock item s :=
  (contrib_spec_aux s item.prices h).2

/-! ### Helper lemmas: the `reduce` picking the cheapest in-stock quote -/

theorem reduceBest_spec :
    ∀ (xs : List StorePrice) (x : StorePrice),
      ∃ l₁ l₂, x :: xs = l₁ ++ reduceBest x xs :: l₂
        ∧ (∀ q ∈ x :: xs, (reduceBest x xs).price ≤ q.price)
        ∧ (∀ q ∈ l₂, (reduceBest x xs).price < q.price) := by
  intro xs
  induction xs with
  | nil =>
    intro x
    refine ⟨[], [], rfl, ?_, ?_⟩
    · intro q hq
      rw [List.mem_singleton] at hq
      subst hq
      simp [reduceBest]
    · intro q hq
      cases hq
  | cons y ys ih =>
    intro x
    have hred : reduceBest x (y :: ys) = reduceBest (if x.price < y.price then x else y) ys := rfl
    by_cases hxy : x.price < y.price
    · rw [if_pos hxy] at hred
      obtain ⟨l₁, l₂, heq, hmin, hstrict⟩ := ih x
      cases l₁ with
      | nil =>
        rw [List.nil_append] at heq
        injection heq with h1 h2
        refine ⟨[], y :: ys, ?_, ?_, ?_⟩
        · rw [hred, List.nil_append, ← h1]
        · intro q hq
          rw [hred]
          rcases List.mem_cons.mp hq with rfl | hq'
          · exact hmin q (List.mem_cons_self _ _)
          · rcases List.mem_cons.mp hq' with rfl | hq''
            · exact le_of_lt (lt_of_le_of_lt (hmin x (List.mem_cons_self _ _)) hxy)
            · exact hmin q (List.mem_cons_of_mem _ hq'')
        · intro q hq
          rw [hred]
          rcases List.mem_cons.mp hq with rfl | hq'
          · exact lt_of_le_of_lt (hmin x (List.mem_cons_self _ _)) hxy
          · exact hstrict q (h2 ▸ hq')
      | cons z t =>
        rw [List.cons_append] at heq
        injection heq with h1 h2
        refine ⟨x :: y :: t, l₂, ?_, ?_, ?_⟩
        · rw [hred, List.cons_append, List.cons_append, ← h2]
        · intro q hq
          rw [hred]
          rcases List.mem_cons.mp hq with rfl | hq'
          · exact hmin q (List.mem_cons_self _ _)
          · rcases List.mem_cons.mp hq' with rfl | hq''
            · exact le_of_lt (lt_of_le_of_lt (hmin x (List.mem_cons_self _ _)) hxy)
            · exact hmin q (List.mem_cons_of_mem _ hq'')
        · intro q hq
          rw [hred]
          exact hstrict q hq
    · rw [if_neg hxy] at hred
      obtain ⟨l₁, l₂, heq, hmin, hstrict⟩ := ih y
      refine ⟨x :: l₁, l₂, ?_, ?_, ?_⟩
      · rw [hred, List.cons_append, ← heq]
      · intro q hq
        rw [hred]
        rcases List.mem_cons.mp hq with rfl | hq'
        · exact le_trans (hmin y (List.mem_cons_self _ _)) (not_lt.mp hxy)
        · exact hmin q hq'
      · intro q hq
        rw [hred]
        exact hstrict q hq

/-! ### Helper lemmas: skeleton items and buckets -/

theorem skeletonItems_length : ∀ (es : List PlanEntry) (idx : ℕ),
    (skeletonItems idx es).length = es.length := by
  intro es
  induction es with
  | nil => intro idx; rfl
  | cons e es ih => intro idx; simp [skeletonItems, ih]

theorem skeletonItems_getElem? : ∀ (es : List PlanEntry) (idx k : ℕ),
    (skeletonItems idx es)[k]? = (es[k]?).map (fun e => skeletonOf (idx + k) e) := by
  intro es
  induction es with
  | nil => intro idx k; simp [skeletonItems]
  | cons e es ih =>
    intro idx k
    cases k with
    | zero => simp [skeletonItems]
    | succ k =>
      show (skeletonOf idx e :: skeletonItems (idx + 1) es)[k + 1]? = _
      rw [List.getElem?_cons_succ, ih (idx + 1) k, List.getElem?_cons_succ]
      have harith : idx + 1 + k = idx + (k + 1) := by omega
      rw [harith]

theorem addToBucket_sum (b : ℤ × ℤ × ℤ × ℤ) (c : ℕ) (v : ℤ) :
    sum4 (addToBucket b c v) = sum4 b + v := by
  unfold sum4 addToBucket
  rcases c with _ | _ | _ | c <;> simp <;> ring

theorem foldl_bucket :
    ∀ (items : List ShoppingItem) (b : ℤ × ℤ × ℤ × ℤ),
      sum4 (items.foldl
        (fun b item => addToBucket b (categorize item.name) (item.bestPrice.getD 0)) b)
      = sum4 b + (items.map (fun i => i.bestPrice.getD 0)).sum := by
  intro items
  induction items with
  | nil => intro b; simp
  | cons i rest ih =>
    intro b
    rw [List.foldl_cons, ih, addToBucket_sum, List.map_cons, List.sum_cons]
    ring

/-! ### Claim theorems -/

/-- C1: For every shopping list in which each item has at most one quote
per store name, and every retailer `s`, the aggregated `StoreTotal` has
`totalCost` equal to the sum of the prices of the items' in-stock quotes
for `s` and `missingItems` equal to the number of items with no in-stock
quote for `s`; on the spec's two-item example the totals are
A = (100, 1 missing) and B = (230, 0 missing). -/
theorem storeTotals_agg_correct (items : List ShoppingItem) (s : String)
    (hu : ∀ i ∈ items, (i.prices.map (fun p => p.storeName)).Nodup) :
    ((storeTotalFor items s).storeName = s
      ∧ (storeTotalFor items s).totalCost = (items.map (fun i => specInStockPrice i s)).sum
      ∧ (storeTotalFor items s).missingItems = items.countP (fun i => !(specHasInStock i s)))
    ∧ storeTotals exItems =
        [ { storeName := "A", totalCost := 100, missingItems := 1 },
          { storeName := "B", totalCost := 230, missingItems := 0 } ] := by
  constructor
  · rw [storeTotalFor_eq]
    refine ⟨rfl, ?_, ?_⟩
    · exact congrArg List.sum (List.map_congr_left (fun i hi => codeContrib_eq_spec i s (hu i hi)))
    · apply List.countP_congr
      intro i hi
      rw [codeHasStock_eq_spec i s (hu i hi)]
  · decide

/-- C1 witness: the theorem applied to the spec's two-item example and
retailer A. -/
theorem storeTotals_agg_correct_witness :
    (∀ i ∈ exItems, (i.prices.map (fun p => p.storeName)).Nodup)
    ∧ (((storeTotalFor exItems "A").storeName = "A"
        ∧ (storeTotalFor exItems "A").totalCost
            = (exItems.map (fun i => specInStockPrice i "A")).sum
        ∧ (storeTotalFor exItems "A").missingItems
            = exItems.countP (fun i => !(specHasInStock i "A")))
      ∧ storeTotals exItems =
          [ { storeName := "A", totalCost := 100, missingItems := 1 },
            { storeName := "B", totalCost := 230, missingItems := 0 } ]) :=
  ⟨by decide, storeTotals_agg_correct exItems "A" (by decide)⟩

/-- C2: The ranking sorts the store totals by the two-key comparator
(`missingItems` ascending, then `totalCost` ascending), the sort is
stable (entries equal on both keys keep their original relative order:
filtering by any key value commutes with sorting), re-sorting the sorted
output changes nothing, and the winner is the head of the sorted
sequence. -/
theorem ranking_sorted_stable (ts : List StoreTotal) :
    List.Sorted leT (rankStores ts)
    ∧ (∀ k : ℕ × ℤ,
        (rankStores ts).filter (fun t => decide (t.missingItems = k.1 ∧ t.totalCost = k.2))
          = ts.filter (fun t => decide (t.missingItems = k.1 ∧ t.totalCost = k.2)))
    ∧ rankStores (rankStores ts) = rankStores ts
    ∧ (∀ items : List ShoppingItem, winner items = (sortedStores items).head?) := by
  refine ⟨List.sorted_insertionSort leT ts, ?_, ?_, fun _ => rfl⟩
  · intro k
    apply filter_insertionSort_agree
    intro a b ha hb
    have ha' := of_decide_eq_true ha
    have hb' := of_decide_eq_true hb
    unfold leT
    omega
  · exact (List.sorted_insertionSort leT ts).insertionSort_eq

/-- C3: An entry with strictly fewer missing items is ranked strictly
earlier, whatever the costs; in particular B (0 missing, cost 900) ranks
before A (1 missing, cost 500). -/
theorem ranking_prefers_fewer_missing (ts : List StoreTotal) (i j : ℕ)
    (hi : i < (rankStores ts).length) (hj : j < (rankStores ts).length)
    (h : ((rankStores ts).get ⟨j, hj⟩).missingItems
          < ((rankStores ts).get ⟨i, hi⟩).missingItems) :
    j < i
    ∧ rankStores [ { storeName := "A", totalCost := 500, missingItems := 1 },
                   { storeName := "B", totalCost := 900, missingItems := 0 } ]
        = [ { storeName := "B", totalCost := 900, missingItems := 0 },
            { storeName := "A", totalCost := 500, missingItems := 1 } ] := by
  constructor
  · by_contra hc
    push_neg at hc
    rcases Nat.lt_or_ge i j with hij | hij
    · have hrel : leT ((rankStores ts).get ⟨i, hi⟩) ((rankStores ts).get ⟨j, hj⟩) :=
        (List.sorted_insertionSort leT ts).rel_get_of_lt
          (show (⟨i, hi⟩ : Fin (rankStores ts).length) < ⟨j, hj⟩ from hij)
      unfold leT at hrel
      omega
    · have hij' : i = j := Nat.le_antisymm hc hij
      subst hij'
      exact lt_irrefl _ h
  · decide

/-- C3 witness: the theorem applied to the concrete pair A/B at the
sorted positions 1 and 0. -/
theorem ranking_prefers_fewer_missing_witness :
    (0 : ℕ) < 1
    ∧ rankStores [ { storeName := "A", totalCost := 500, missingItems := 1 },
                   { storeName := "B", totalCost := 900, missingItems := 0 } ]
        = [ { storeName := "B", totalCost := 900, missingItems := 0 },
            { storeName := "A", totalCost := 500, missingItems := 1 } ] :=
  ranking_prefers_fewer_missing
    [ { storeName := "A", totalCost := 500, missingItems := 1 },
      { storeName := "B", totalCost := 900, missingItems := 0 } ]
    1 0 (by decide) (by decide) (by decide)

/-- C4: For a non-empty shopping list the retailer universe is exactly
the set of distinct store names over all quotes, duplicate-free and
sorted in the lexicographic string order (the order is characterised
against `List.Lex` on the character lists). -/
theorem allStoreNames_universe (items : List ShoppingItem) (h : items ≠ []) :
    (allStoreNames items).Nodup
    ∧ List.Sorted rStr (allStoreNames items)
    ∧ (∀ a b : String, rStr a b ↔ (a = b ∨ List.Lex (· < ·) a.toList b.toList))
    ∧ (∀ s : String, s ∈ allStoreNames items
        ↔ ∃ i ∈ items, ∃ p ∈ i.prices, p.storeName = s) := by
  refine ⟨?_, List.sorted_insertionSort rStr _, rStr_iff, ?_⟩
  · exact ((List.perm_insertionSort rStr _).nodup_iff).mpr (nodup_dedupFirstAux _ _)
  · intro s
    unfold allStoreNames
    rw [List.mem_insertionSort, mem_dedupFirstAux]
    simp only [List.not_mem_nil, not_false_iff, and_true]
    unfold allQuoteStoreNames
    rw [List.mem_flatMap]
    constructor
    · rintro ⟨i, hi, hp⟩
      rw [List.mem_map] at hp
      obtain ⟨p, hp, rfl⟩ := hp
      exact ⟨i, hi, p, hp, rfl⟩
    · rintro ⟨i, hi, p, hp, rfl⟩
      exact ⟨i, hi, List.mem_map.mpr ⟨p, hp, rfl⟩⟩

/-- C4 witness: the theorem applied to the spec's two-item example. -/
theorem allStoreNames_universe_witness :
    exItems ≠ []
    ∧ ((allStoreNames exItems).Nodup
      ∧ List.Sorted rStr (allStoreNames exItems)
      ∧ (∀ a b : String, rStr a b ↔ (a = b ∨ List.Lex (· < ·) a.toList b.toList))
      ∧ (∀ s : String, s ∈ allStoreNames exItems
          ↔ ∃ i ∈ exItems, ∃ p ∈ i.prices, p.storeName = s)) :=
  ⟨by decide, allStoreNames_universe exItems (by decide)⟩

/-- C5: The per-item highlighter: when some quote is in stock, `minPrice`
is the true minimum of the in-stock prices and a quote is flagged best
exactly when it is in stock and priced at that minimum; when nothing is
in stock no quote is flagged; on the spec's X/Y/Z example X and Z are
flagged and Y is not. -/
theorem best_price_highlighter (item : ShoppingItem) :
    (inStockPrices item ≠ [] →
      (minPrice item ∈ inStockPrices item
        ∧ (∀ q ∈ inStockPrices item, minPrice item ≤ q)
        ∧ (∀ p ∈ item.prices,
            (isBest item p = true ↔ (p.inStock = true ∧ p.price = minPrice item)))))
    ∧ ((∀ p ∈ item.prices, p.inStock = false) → ∀ p ∈ item.prices, isBest item p = false)
    ∧ (isBest exItem5
        { storeName := "X", price := 100, inStock := true, productName := "", weight := "" } = true
      ∧ isBest exItem5
        { storeName := "Y", price := 90, inStock := false, productName := "", weight := "" } = false
      ∧ isBest exItem5
        { storeName := "Z", price := 100, inStock := true, productName := "", weight := "" } = true) := by
  refine ⟨?_, ?_, by decide⟩
  · intro hne
    cases hmp : inStockPrices item with
    | nil => exact absurd hmp hne
    | cons x xs =>
      have hmin : minPrice item = xs.foldl min x := by
        unfold minPrice
        rw [hmp]
      refine ⟨?_, ?_, ?_⟩
      · rw [hmin]
        exact foldl_min_mem xs x
      · intro q hq
        rw [hmin]
        exact foldl_min_le xs x q hq
      · intro p hp
        unfold isBest
        rw [Bool.and_eq_true, decide_eq_true_iff]
  · intro hall p hp
    unfold isBest
    rw [hall p hp]
    rfl

/-- C5 witness: the theorem applied to the spec's X/Y/Z example item. -/
theorem best_price_highlighter_witness :
    (inStockPrices exItem5 ≠ [] →
      (minPrice exItem5 ∈ inStockPrices exItem5
        ∧ (∀ q ∈ inStockPrices exItem5, minPrice exItem5 ≤ q)
        ∧ (∀ p ∈ exItem5.prices,
            (isBest exItem5 p = true ↔ (p.inStock = true ∧ p.price = minPrice exItem5)))))
    ∧ ((∀ p ∈ exItem5.prices, p.inStock = false) → ∀ p ∈ exItem5.prices, isBest exItem5 p = false)
    ∧ (isBest exItem5
        { storeName := "X", price := 100, inStock := true, productName := "", weight := "" } = true
      ∧ isBest exItem5
        { storeName := "Y", price := 90, inStock := false, productName := "", weight := "" } = false
      ∧ isBest exItem5
        { storeName := "Z", price := 100, inStock := true, productName := "", weight := "" } = true) :=
  best_price_highlighter exItem5

/-- C6 counterexample: for an item whose two in-stock quotes A and B tie
at the minimum price 100, the first in-stock quote attaining the minimum
is A's, yet the post-processing stores `bestStore = "B"` — the claim's
first-occurrence tie-break is false on the code. -/
theorem bestStore_first_tie_cex :
    (exTieItem.prices.filter (fun p => p.inStock)).map (fun p => p.price) = [100, 100]
    ∧ (exTieItem.prices.find? (fun p => p.inStock && decide (p.price = 100))).map
        (fun p => p.storeName) = some "A"
    ∧ (postProcess exTieItem).bestStore = some "B"
    ∧ (postProcess exTieItem).bestPrice = some 100 := by
  decide

/-- C6 (amended): for an item produced by the estimation schema (no
`bestStore`/`bestPrice` yet), the post-processing leaves both fields
absent when nothing is in stock; otherwise it stores the minimum
in-stock price as `bestPrice` and the store of the LAST in-stock quote
attaining that minimum as `bestStore` (ties are broken by the last
occurrence in iteration order, not the first). -/
theorem postProcess_best_fields (item : ShoppingItem)
    (hbs : item.bestStore = none) (hbp : item.bestPrice = none) :
    (item.prices.filter (fun p => p.inStock) = [] →
      (postProcess item).bestStore = none ∧ (postProcess item).bestPrice = none)
    ∧ (∀ x xs, item.prices.filter (fun p => p.inStock) = x :: xs →
        ∃ best l₁ l₂,
          x :: xs = l₁ ++ best :: l₂
          ∧ (postProcess item).bestStore = some best.storeName
          ∧ (postProcess item).bestPrice = some best.price
          ∧ (∀ q ∈ x :: xs, best.price ≤ q.price)
          ∧ (∀ q ∈ l₂, best.price < q.price)) := by
  constructor
  · intro hfe
    unfold postProcess
    rw [hfe]
    exact ⟨hbs, hbp⟩
  · intro x xs hfe
    obtain ⟨l₁, l₂, heq, hmin, hstrict⟩ := reduceBest_spec xs x
    refine ⟨reduceBest x xs, l₁, l₂, heq, ?_, ?_, hmin, hstrict⟩
    · unfold postProcess
      rw [hfe]
    · unfold postProcess
      rw [hfe]

/-- C6 witness: the amended theorem applied to the tied two-quote item. -/
theorem postProcess_best_fields_witness :
    exTieItem.bestStore = none
    ∧ exTieItem.bestPrice = none
    ∧ ((exTieItem.prices.filter (fun p => p.inStock) = [] →
        (postProcess exTieItem).bestStore = none ∧ (postProcess exTieItem).bestPrice = none)
      ∧ (∀ x xs, exTieItem.prices.filter (fun p => p.inStock) = x :: xs →
          ∃ best l₁ l₂,
            x :: xs = l₁ ++ best :: l₂
            ∧ (postProcess exTieItem).bestStore = some best.storeName
            ∧ (postProcess exTieItem).bestPrice = some best.price
            ∧ (∀ q ∈ x :: xs, best.price ≤ q.price)
            ∧ (∀ q ∈ l₂, best.price < q.price))) :=
  ⟨rfl, rfl, postProcess_best_fields exTieItem rfl rfl⟩

/-- C7 counterexample: a non-empty shopping list whose items have no
quotes reaches the READY rendering branch (the guard only checks
`items.length > 0`), yet `sortedStores` is empty and `winner` is the JS
value `undefined` (`none`), so `winner.storeName` in the banner throws —
the claimed safety of winner selection for every READY input is false. -/
theorem ready_winner_unsafe_cex :
    [exNoQuoteItem] ≠ ([] : List ShoppingItem)
    ∧ allStoreNames [exNoQuoteItem] = []
    ∧ sortedStores [exNoQuoteItem] = []
    ∧ winner [exNoQuoteItem] = none := by
  decide

/-- C7 (amended): the empty shopping list yields an empty retailer
universe, no store totals and no winner (and the READY branch is not
even entered for it); winner selection is safe exactly on the inputs
whose retailer universe is non-empty; and a retailer with no in-stock
quote anywhere aggregates to total 0 with every item missing, without
any exception — but a non-empty list with an empty retailer universe
does reach the READY branch with `winner` undefined. -/
theorem aggregation_empty_safe :
    (allStoreNames ([] : List ShoppingItem) = []
      ∧ storeTotals ([] : List ShoppingItem) = []
      ∧ winner ([] : List ShoppingItem) = none)
    ∧ (∀ items : List ShoppingItem, allStoreNames items ≠ [] → (winner items).isSome = true)
    ∧ (∀ (items : List ShoppingItem) (s : String),
        (∀ i ∈ items, ∀ p ∈ i.prices, p.storeName = s → p.inStock = false) →
        storeTotalFor items s
          = { storeName := s, totalCost := 0, missingItems := items.length }) := by
  refine ⟨⟨rfl, rfl, rfl⟩, ?_, ?_⟩
  · intro items hne
    unfold winner
    cases hss : sortedStores items with
    | cons a l => rfl
    | nil =>
      exfalso
      apply hne
      have hlen := List.length_insertionSort leT (storeTotals items)
      rw [show List.insertionSort leT (storeTotals items) = sortedStores items from rfl,
        hss] at hlen
      have h1 : storeTotals items = [] := List.length_eq_zero.mp hlen.symm
      unfold storeTotals at h1
      exact List.map_eq_nil_iff.mp h1
  · intro items s hall
    rw [storeTotalFor_eq]
    have hc : ∀ i ∈ items, codeContrib i s = 0 ∧ codeHasStock i s = false := by
      intro i hi
      unfold codeContrib codeHasStock
      cases hf : i.prices.find? (fun p => p.storeName == s) with
      | none => exact ⟨rfl, rfl⟩
      | some p =>
        have hmem := List.mem_of_find?_eq_some hf
        have hpred := List.find?_some hf
        have hsn : p.storeName = s := beq_iff_eq.mp hpred
        have hout : p.inStock = false := hall i hi p hmem hsn
        simp [hout]
    simp only [StoreTotal.mk.injEq]
    refine ⟨trivial, ?_, ?_⟩
    · have hmz : items.map (fun i => codeContrib i s) = items.map (fun _ => (0 : ℤ)) :=
        List.map_congr_left (fun i hi => (hc i hi).1)
      rw [hmz]
      simp
    · rw [List.countP_eq_length]
      intro i hi
      simp [(hc i hi).2]

/-- C7 witness: on the spec's two-item example the retailer universe is
non-empty and the winner exists. -/
theorem aggregation_empty_safe_witness :
    allStoreNames exItems ≠ [] ∧ (winner exItems).isSome = true :=
  ⟨by decide, aggregation_empty_safe.2.1 exItems (by decide)⟩

/-- C8 counterexample: for a freshly generated plan whose shopping list
is empty, `handlePlanUpdate` keeps the previous shopping list untouched
(the replacement is guarded by `newPlan.shoppingList.length > 0`), so a
prior item together with its price data survives — the claim's "for
every newly generated menu plan" is false. -/
theorem handlePlanUpdate_empty_plan_cex :
    exPrevSt.shoppingList = [exOldItem]
    ∧ exOldItem.prices ≠ []
    ∧ exEmptyPlan.shoppingList = []
    ∧ (handlePlanUpdate exPrevSt exEmptyPlan).shoppingList = [exOldItem] := by
  decide

/-- C8 (amended): for every plan whose shopping list is non-empty,
`handlePlanUpdate` replaces the shopping list wholesale: the result has
exactly one skeleton item per plan entry (new name and amount, id equal
to the index, empty prices, no best fields), it is independent of the
previous session state, the status is reset to IDLE and the plan is
stored. -/
theorem handlePlanUpdate_replaces_list (st st' : AppState) (plan : AIPlanResponse)
    (h : plan.shoppingList ≠ []) :
    (handlePlanUpdate st plan).shoppingList.length = plan.shoppingList.length
    ∧ (∀ (k : ℕ) (e : PlanEntry), plan.shoppingList[k]? = some e →
        (handlePlanUpdate st plan).shoppingList[k]? = some
          { id := toString k, name := e.name, originalAmount := e.amount
            prices := [], bestStore := none, bestPrice := none })
    ∧ (handlePlanUpdate st plan).shoppingList = (handlePlanUpdate st' plan).shoppingList
    ∧ (handlePlanUpdate st plan).status = AppStatus.IDLE
    ∧ (handlePlanUpdate st plan).currentPlan = some plan := by
  have hpos : plan.shoppingList.length > 0 := List.length_pos.mpr h
  have hsl : (handlePlanUpdate st plan).shoppingList = skeletonItems 0 plan.shoppingList := by
    unfold handlePlanUpdate
    rw [if_pos hpos]
  have hsl' : (handlePlanUpdate st' plan).shoppingList = skeletonItems 0 plan.shoppingList := by
    unfold handlePlanUpdate
    rw [if_pos hpos]
  refine ⟨?_, ?_, ?_, ?_, ?_⟩
  · rw [hsl, skeletonItems_length]
  · intro k e hke
    rw [hsl, skeletonItems_getElem?, hke]
    simp [skeletonOf]
  · rw [hsl, hsl']
  · unfold handlePlanUpdate
    rw [if_pos hpos]
  · unfold handlePlanUpdate
    rw [if_pos hpos]

/-- C8 witness: the amended theorem applied to the two-entry plan and
two different previous states. -/
theorem handlePlanUpdate_replaces_list_witness :
    exPlan8.shoppingList ≠ []
    ∧ ((handlePlanUpdate exPrevSt exPlan8).shoppingList.length = exPlan8.shoppingList.length
      ∧ (∀ (k : ℕ) (e : PlanEntry), exPlan8.shoppingList[k]? = some e →
          (handlePlanUpdate exPrevSt exPlan8).shoppingList[k]? = some
            { id := toString k, name := e.name, originalAmount := e.amount
              prices := [], bestStore := none, bestPrice := none })
      ∧ (handlePlanUpdate exPrevSt exPlan8).shoppingList
          = (handlePlanUpdate
              { currentPlan := none, shoppingList := [], status := AppStatus.IDLE }
              exPlan8).shoppingList
      ∧ (handlePlanUpdate exPrevSt exPlan8).status = AppStatus.IDLE
      ∧ (handlePlanUpdate exPrevSt exPlan8).currentPlan = some exPlan8) :=
  ⟨by decide,
    handlePlanUpdate_replaces_list exPrevSt
      { currentPlan := none, shoppingList := [], status := AppStatus.IDLE }
      exPlan8 (by decide)⟩

/-- C9: The tool-call response is validated defensively before entering
the session state: a non-array `meals` or `shoppingList` becomes the
empty list, an array passes through unchanged, a non-numeric
`totalEstimatedCost` becomes 0, a numeric one passes through — so the
plan stored by the state transition always has list-shaped fields and a
numeric total. -/
theorem validate_plan_defensive (st : AppState) (args : RawPlanArgs) :
    ∃ p : AIPlanResponse, (processToolCall st args).currentPlan = some p
      ∧ (args.meals = JsArrayField.notArray → p.meals = [])
      ∧ (∀ xs, args.meals = JsArrayField.arr xs → p.meals = xs)
      ∧ (args.shoppingList = JsArrayField.notArray → p.shoppingList = [])
      ∧ (∀ xs, args.shoppingList = JsArrayField.arr xs → p.shoppingList = xs)
      ∧ (args.totalEstimatedCost = JsNumField.notNum → p.totalEstimatedCost = 0)
      ∧ (∀ q, args.totalEstimatedCost = JsNumField.num q → p.totalEstimatedCost = q) := by
  refine ⟨validatePlanArgs args, ?_, ?_, ?_, ?_, ?_, ?_, ?_⟩
  · unfold processToolCall handlePlanUpdate
    split <;> rfl
  · intro hm
    unfold validatePlanArgs
    rw [hm]
  · intro xs hm
    unfold validatePlanArgs
    rw [hm]
  · intro hm
    unfold validatePlanArgs
    rw [hm]
  · intro xs hm
    unfold validatePlanArgs
    rw [hm]
  · intro hm
    unfold validatePlanArgs
    rw [hm]
  · intro q hm
    unfold validatePlanArgs
    rw [hm]

/-- C9 witness: the theorem applied to a fully malformed response. -/
theorem validate_plan_defensive_witness :
    ∃ p : AIPlanResponse,
      (processToolCall
        { currentPlan := none, shoppingList := [], status := AppStatus.IDLE }
        exBadArgs).currentPlan = some p
      ∧ (exBadArgs.meals = JsArrayField.notArray → p.meals = [])
      ∧ (∀ xs, exBadArgs.meals = JsArrayField.arr xs → p.meals = xs)
      ∧ (exBadArgs.shoppingList = JsArrayField.notArray → p.shoppingList = [])
      ∧ (∀ xs, exBadArgs.shoppingList = JsArrayField.arr xs → p.shoppingList = xs)
      ∧ (exBadArgs.totalEstimatedCost = JsNumField.notNum → p.totalEstimatedCost = 0)
      ∧ (∀ q, exBadArgs.totalEstimatedCost = JsNumField.num q → p.totalEstimatedCost = q) :=
  validate_plan_defensive
    { currentPlan := none, shoppingList := [], status := AppStatus.IDLE } exBadArgs

/-- C10: Every item is assigned by the keyword chain to exactly one of
the four buckets (Бакалея is the catch-all), each append adds the item's
`bestPrice` (0 when absent) to exactly that bucket, and the four bucket
values sum to the total of `bestPrice` over all items with absent
treated as 0. -/
theorem analytics_buckets_sum (items : List ShoppingItem) (h : items ≠ []) :
    (∀ item : ShoppingItem, categorize item.name < 4)
    ∧ (∀ (pre : List ShoppingItem) (it : ShoppingItem),
        bucketValues (pre ++ [it])
          = addToBucket (bucketValues pre) (categorize it.name) (it.bestPrice.getD 0))
    ∧ sum4 (bucketValues items) = (items.map (fun i => i.bestPrice.getD 0)).sum := by
  refine ⟨?_, ?_, ?_⟩
  · intro item
    unfold categorize
    simp only []
    split_ifs <;> omega
  · intro pre it
    unfold bucketValues
    rw [List.foldl_append]
    rfl
  · have h0 : sum4 ((0, 0, 0, 0) : ℤ × ℤ × ℤ × ℤ) = 0 := by norm_num [sum4]
    unfold bucketValues
    rw [foldl_bucket items (0, 0, 0, 0), h0, zero_add]

/-- C10 witness: the theorem applied to a one-item list (a dairy item
with best price 75). -/
theorem analytics_buckets_sum_witness :
    [exMilkItem] ≠ ([] : List ShoppingItem)
    ∧ ((∀ item : ShoppingItem, categorize item.name < 4)
      ∧ (∀ (pre : List ShoppingItem) (it : ShoppingItem),
          bucketValues (pre ++ [it])
            = addToBucket (bucketValues pre) (categorize it.name) (it.bestPrice.getD 0))
      ∧ sum4 (bucketValues [exMilkItem])
          = ([exMilkItem].map (fun i => i.bestPrice.getD 0)).sum) :=
  ⟨by decide, analytics_buckets_sum [exMilkItem] (by decide)⟩

end SmartShopper
